import Mathlib

/-!
Verification of the beam-search decoding kernels and multi-device buffer
setup of the cortex.tensorrt-llm repository.

The development shallowly embeds:
* `apply_length_penalty` and the online-softmax combine `reduce_md_op` from
  cpp/tensorrt_llm/kernels/onlineSoftmaxBeamsearchKernels/onlineSoftmaxBeamsearchKernelsTemplate.h,
  with float arithmetic idealized over the real numbers;
* the sequential thread-0 hypothesis-selection logic of `batch_topk_kernel`
  (same file), per request, with float scores idealized as rationals and the
  float length-penalty normalization abstracted into a score-normalization
  function carried by the state;
* the beam-width dispatch of `invokeTopkSoftMax`
  (cpp/tensorrt_llm/kernels/onlineSoftmaxBeamsearchKernels.cu);
* the finished-beam logits replacement of the three stage-1 reduction
  variants (same template header);
* `allocateIpcMemory` / `destroyIpcMemory` / `setPeerAccess` from the
  runtime ipc utilities (cpp/include/tensorrt_llm/runtime/gptDecoderBatch.h
  companion source).
-/

/-! ## Length penalty (C6)

`apply_length_penalty` from onlineSoftmaxBeamsearchKernelsTemplate.h lines
44-53.  Floating point is idealized over ℝ and `powf` as real exponentiation
(`Real.rpow`).  The source early-returns the raw log-probability when the
penalty is zero or the length is one. -/

noncomputable def apply_length_penalty (log_prob : ℝ) (length : ℕ) (length_penalty : ℝ) : ℝ :=
  if length_penalty = 0 ∨ length = 1 then log_prob
  else log_prob / (length : ℝ) ^ length_penalty

/-! ## Online softmax combine (C4)

`MD` and `reduce_md_op` from onlineSoftmaxBeamsearchKernelsTemplate.h lines
372-387.  The implementation selects the state with the larger running max
and rescales the other state's denominator. -/

structure MD where
  m : ℝ
  d : ℝ

noncomputable def reduce_md_op (a b : MD) : MD :=
  if a.m > b.m then { m := a.m, d := a.d + b.d * Real.exp (b.m - a.m) }
  else { m := b.m, d := b.d + a.d * Real.exp (a.m - b.m) }

/-- The combine formula exactly as the specification writes it:
`combine(a,b) = (max(a.m,b.m), b.d + a.d * exp(a.m - b.m))`.  Written here
only to compare it with the source's `reduce_md_op`. -/
noncomputable def combine_spec (a b : MD) : MD :=
  { m := max a.m b.m, d := b.d + a.d * Real.exp (a.m - b.m) }

/-! ## Beam-width dispatch of `invokeTopkSoftMax` (C5)

From onlineSoftmaxBeamsearchKernels.cu lines 35-63.  The C++ computes
`log_beam_width` with the loop `recursor = beam_width - 1;
while (recursor >>= 1) ++log_beam_width;`, which is exactly the defining
recursion of `Nat.log2` applied to `beam_width - 1` (shift right once, stop
at zero, count the remaining iterations).  The switch then falls through
case 0 into case 1 (both dispatch `MAX_K = 4`), dispatches 8/16/32/64 for
cases 2..5 (cases 3..5 are compiled out under `FAST_BUILD`), and every other
value reaches the `default` label and throws an error naming the beam
width. -/

inductive KernelConfigError where
  | unsupportedBeamWidth (beam_width : ℕ)
  | unsupportedTopK (topK maxSupported : ℕ)
deriving DecidableEq

def log_beam_width (beam_width : ℕ) : ℕ := Nat.log2 (beam_width - 1)

def invokeTopkSoftMax (fast_build : Bool) (beam_width : ℕ) : Except KernelConfigError ℕ :=
  if log_beam_width beam_width ≤ 1 then .ok 4
  else if log_beam_width beam_width = 2 then .ok 8
  else if fast_build = false ∧ log_beam_width beam_width = 3 then .ok 16
  else if fast_build = false ∧ log_beam_width beam_width = 4 then .ok 32
  else if fast_build = false ∧ log_beam_width beam_width = 5 then .ok 64
  else .error (.unsupportedBeamWidth beam_width)

/-- Modelled from the spec: the batched top-k sampling entry point
(`invokeBatchTopKSampling`) is not part of the sources here; only its test
`NotSupportedLargerThanK1024` and the top-p declarations are.  Per the spec,
requesting a top-k value above the compiled/supported maximum of 1024 raises
a configuration error identifying the offending parameter and performs no
device work. -/
def invokeBatchTopKSamplingCheck (topK : ℕ) : Except KernelConfigError Unit :=
  if 1024 < topK then .error (.unsupportedTopK topK 1024) else .ok ()

/-! ## Finished-beam logits replacement in the stage-1 reductions (C10)

In `beam_online_softmax_topk_kernel` (lines 429-448),
`beam_online_softmax_topk_stage1_kernel_base` (lines 509-531) and
`beam_online_softmax_topk_stage1_kernel_fast` (lines 598-629), a beam whose
`FinishedState` reads finished has its per-token score replaced by
`MAX_T_VAL` for the end token and `-MAX_T_VAL` for every other token.
Float scores are idealized as rationals; `FLT_MAX`/`MAX_T_VAL` becomes the
rational `2 ^ 128` (the magnitude of `FLT_MAX`). -/

def MAX_T_VAL : ℚ := 2 ^ 128

/-- Per-token score of the single-pass `beam_online_softmax_topk_kernel`:
the bias pointer is always dereferenced there. -/
def softmax_topk_elem (finished : Bool) (log_probs bias : ℕ → ℚ) (end_id id : ℕ) : ℚ :=
  if finished then (if id = end_id then MAX_T_VAL else -MAX_T_VAL)
  else log_probs id + bias id

/-- Per-token score of `beam_online_softmax_topk_stage1_kernel_base`, where
`bias == nullptr` contributes zero. -/
def stage1_base_elem (finished : Bool) (log_probs : ℕ → ℚ) (bias : Option (ℕ → ℚ))
    (end_id id : ℕ) : ℚ :=
  if finished then (if id = end_id then MAX_T_VAL else -MAX_T_VAL)
  else log_probs id + (match bias with | none => 0 | some b => b id)

/-- Per-token score of `beam_online_softmax_topk_stage1_kernel_fast`; the
finished-beam branch is identical to the base variant. -/
def stage1_fast_elem (finished : Bool) (log_probs : ℕ → ℚ) (bias : Option (ℕ → ℚ))
    (end_id id : ℕ) : ℚ :=
  if finished then (if id = end_id then MAX_T_VAL else -MAX_T_VAL)
  else log_probs id + (match bias with | none => 0 | some b => b id)

/-- Model of `cub::ArgMax`: keep the pair with the larger value, preferring
the smaller key on ties. -/
def arg_max (a b : ℕ × ℚ) : ℕ × ℚ :=
  if a.2 < b.2 ∨ (b.2 = a.2 ∧ b.1 < a.1) then b else a

/-- Top-ranked (id, score) candidate over the vocabulary: the reductions
initialize the partial result with `(vocab_size - 1, -MAX_T_VAL)` and fold
`cub::ArgMax` over every vocabulary id. -/
def top_candidate (f : ℕ → ℚ) (vocab_size : ℕ) : ℕ × ℚ :=
  ((List.range vocab_size).map (fun id => (id, f id))).foldl arg_max
    (vocab_size - 1, -MAX_T_VAL)

/-! ## Multi-device peer buffers (C7)

`IpcMemory::allocateIpcMemory` exchanges IPC handles by all-gather, then
fills `mCommPtrs[nodeId]` with the local allocation for its own rank and
with `cudaIpcOpenMemHandle` of the exchanged handle for every other rank.
`IpcMemory::destroyIpcMemory` closes the handle of every rank other than its
own and never frees the local allocation.  Device pointers are abstracted
into an arbitrary type: `localPtr` is the local allocation and
`openHandle nodeId` the mapping of the foreign handle exported by rank
`nodeId`. -/

def allocateIpcMemory {α : Type} (tpSize tpRank : ℕ) (localPtr : α)
    (openHandle : ℕ → α) : List α :=
  (List.range tpSize).map fun nodeId => if nodeId = tpRank then localPtr else openHandle nodeId

/-- Ranks whose imported handle `destroyIpcMemory` closes
(`cudaIpcCloseMemHandle` for every `nodeId != mTpRank`). -/
def destroyIpcMemory (tpSize tpRank : ℕ) : List ℕ :=
  (List.range tpSize).filter fun nodeId => nodeId ≠ tpRank

/-! ## Peer-access configuration (C8)

`setPeerAccess` loops over every destination rank of the tensor-parallel
group, skips its own rank, issues the enable/disable call, and inspects
`cudaGetLastError()`: the statuses `cudaErrorPeerAccessAlreadyEnabled` and
`cudaErrorPeerAccessNotEnabled` are swallowed, everything else goes through
`TLLM_CUDA_CHECK`, which throws on any status other than `cudaSuccess`. -/

inductive CudaError where
  | success
  | peerAccessAlreadyEnabled
  | peerAccessNotEnabled
  | other (code : ℕ)
deriving DecidableEq

/-- Model of `TLLM_CUDA_CHECK`: throw unless the status is `cudaSuccess`. -/
def cudaCheck (e : CudaError) : Except CudaError Unit :=
  if e = .success then .ok () else .error e

/-- Error handling for one destination rank in `setPeerAccess`. -/
def handlePeerStatus (e : CudaError) : Except CudaError Unit :=
  if e ≠ .peerAccessAlreadyEnabled ∧ e ≠ .peerAccessNotEnabled then cudaCheck e
  else .ok ()

/-- The `setPeerAccess` loop body over the listed destination ranks;
`status destNode` is the `cudaGetLastError()` value observed after the
enable/disable call for that destination.  A thrown error aborts the
loop. -/
def setPeerAccessLoop (status : ℕ → CudaError) (srcNode : ℕ) :
    List ℕ → Except CudaError Unit
  | [] => .ok ()
  | destNode :: rest =>
    if destNode = srcNode then setPeerAccessLoop status srcNode rest
    else
      match handlePeerStatus (status destNode) with
      | .ok _ => setPeerAccessLoop status srcNode rest
      | .error e => .error e

def setPeerAccess (tensorParallelism srcNode : ℕ) (status : ℕ → CudaError) :
    Except CudaError Unit :=
  setPeerAccessLoop status srcNode (List.range tensorParallelism)

/-! ## Hypothesis selection: `batch_topk_kernel` (C1, C2, C3, C9)

Per-request model of the sequential thread-0 logic of `batch_topk_kernel`
(onlineSoftmaxBeamsearchKernelsTemplate.h lines 117-370).  The parallel
top-2K extraction (lines 176-213) only produces the candidate list
`cta_topk` consumed by the sequential loop; the model therefore takes the
candidate list as input.  Each candidate carries the diversity-adjusted
score `val` (`cta_topk[i].value`), the raw score `raw`
(`topk_val[current_key]`) and the absolute token id `tok`
(`topk_id[current_key]`).

Modelling conventions:
* one request (`vector_id`) is modelled with `ite = 0`, so
  `global_batch_idx = vector_id`, and every array is restricted to the
  request's slice (beam-indexed or `(beam, position)`-indexed);
* float scores are rationals, and the float
  `apply_length_penalty(x, n, length_penalty)` is carried in the state as an
  abstract normalization function `lenPen x n` (its argument `n` is the
  `int` length, so it is an integer); the raw `length_penalty` value is kept
  as well because the `early_stopping` default branch tests its sign;
* `FLT_MAX` becomes the rational `MAX_T_VAL`;
* the optional `log_probs` and `log_probs_src` pointers are modelled by the
  flags `hasLogProbsTgt` / `hasLogProbsSrc` guarding the corresponding
  writes. -/

structure Cand where
  tok : ℕ
  val : ℚ
  raw : ℚ
deriving DecidableEq

structure BeamState where
  K : ℕ
  vocab_size : ℕ
  end_id : ℕ
  early_stopping : ℤ
  length_penalty : ℚ
  lenPen : ℚ → ℤ → ℚ
  input_length : ℕ
  max_seq_len : ℕ
  beamSearchEnabled : Bool
  hasLogProbsTgt : Bool
  hasLogProbsSrc : Bool
  sequence_lengths : ℕ → ℕ
  cum_log_probs_src : ℕ → ℚ
  finishedBeam : ℕ → Bool
  output_ids_src : ℕ → ℕ → ℕ
  parent_ids_src : ℕ → ℕ → ℕ
  log_probs_src : ℕ → ℕ → ℚ
  num_beams : ℕ
  min_normed_scores : ℚ
  normed_scores : ℕ → ℚ
  seq_len_tgt : ℕ → ℕ
  cum_log_probs_tgt : ℕ → ℚ
  output_ids_tgt : ℕ → ℕ → ℕ
  log_probs_tgt : ℕ → ℕ → ℚ
  is_done : Bool

/-- The candidate names the end token:
`topk_id[current_key] % vocab_size == end_ids[vector_id]`. -/
def isEndToken (s : BeamState) (c : Cand) : Bool :=
  c.tok % s.vocab_size = s.end_id

/-- Length-penalty-normalized score of an end-of-sequence candidate at
slot-beam `i` (lines 229-231): generated length
`sequence_lengths[i] - input_length`, padded by one when the beam is not
yet finished. -/
def finishedNormedScore (s : BeamState) (i : ℕ) (c : Cand) : ℚ :=
  let seq_len : ℤ := (s.sequence_lengths i : ℤ) - (s.input_length : ℤ)
  let pad : ℤ := if s.finishedBeam i then 0 else 1
  s.lenPen c.val (seq_len + pad)

/-- Fold of `min` over the first `n` entries of `f`, seeded with `FLT_MAX`,
exactly as the kernel recomputes `min_normed_scores` (lines 254-261). -/
def minFold (f : ℕ → ℚ) (n : ℕ) : ℚ :=
  ((List.range n).map f).foldl min MAX_T_VAL

/-- Lines 247-265: find the first stored hypothesis whose normed score
equals `min_normed_scores`, overwrite its score with `normed_score`,
decrement `num_beams` and recompute the minimum over the first `K` slots
starting from `FLT_MAX`.  Returns the updated state and the slot index the
incoming hypothesis will be written to (`beam_idx`); when no slot matches,
the state is unchanged and `beam_idx` keeps its initial value
`num_beams`. -/
def replaceWorst (s : BeamState) (normed_score : ℚ) : BeamState × ℕ :=
  match (List.range s.K).find? (fun j => s.normed_scores j = s.min_normed_scores) with
  | none => (s, s.num_beams)
  | some j =>
      let scores := Function.update s.normed_scores j normed_score
      ({ s with num_beams := s.num_beams - 1,
                normed_scores := scores,
                min_normed_scores := minFold scores s.K }, j)

/-- Backward walk along the parent-id chain (lines 279-290), filling target
positions `n-1, n-2, ..., 0` of the output row (and of the per-token
log-prob row when both log-prob buffers are present). -/
def backWalk (src : ℕ → ℕ → ℕ) (par : ℕ → ℕ → ℕ) (lsrc : ℕ → ℕ → ℚ) (useLog : Bool) :
    ℕ → ℕ → (ℕ → ℕ) → (ℕ → ℚ) → (ℕ → ℕ) × (ℕ → ℚ)
  | 0, _, rowI, rowL => (rowI, rowL)
  | n + 1, prev_id, rowI, rowL =>
      backWalk src par lsrc useLog n (par prev_id n)
        (Function.update rowI n (src prev_id n))
        (if useLog then Function.update rowL n (lsrc n prev_id) else rowL)

/-- Lines 267-297: commit an end-of-sequence candidate into ledger slot
`beam_idx`: write the end token at the finishing position, reconstruct the
prefix by the backward parent walk, then record sequence length, normed
score, running minimum, hypothesis count and raw cumulative
log-probability. -/
def commitFinished (s : BeamState) (old_cum_log_probs : ℕ → ℚ) (c : Cand)
    (beam_idx : ℕ) (normed_score : ℚ) : BeamState :=
  let prev_id := (c.tok / s.vocab_size) % s.K
  let current_step := s.sequence_lengths prev_id
  let rowI := Function.update (s.output_ids_tgt beam_idx) current_step s.end_id
  let rowL :=
    if s.hasLogProbsTgt then
      Function.update (s.log_probs_tgt beam_idx) current_step
        (c.raw - old_cum_log_probs prev_id)
    else s.log_probs_tgt beam_idx
  let rows := backWalk s.output_ids_src s.parent_ids_src s.log_probs_src
    (s.hasLogProbsTgt && s.hasLogProbsSrc) current_step prev_id rowI rowL
  { s with
    output_ids_tgt := Function.update s.output_ids_tgt beam_idx rows.1
    log_probs_tgt := Function.update s.log_probs_tgt beam_idx rows.2
    seq_len_tgt := Function.update s.seq_len_tgt beam_idx current_step
    normed_scores := Function.update s.normed_scores beam_idx normed_score
    min_normed_scores := min s.min_normed_scores normed_score
    num_beams := s.num_beams + 1
    cum_log_probs_tgt := Function.update s.cum_log_probs_tgt beam_idx c.raw }

/-- Lines 226-298: consider an end-of-sequence candidate in top-K range for
the finished-hypothesis ledger.  Returns the updated state and `true` when
the ledger was full and the candidate scored below the stored minimum, in
which case the kernel sets `selected_beams = K` and stops considering
candidates. -/
def tryAddFinished (s : BeamState) (old_cum_log_probs : ℕ → ℚ) (i : ℕ) (c : Cand) :
    BeamState × Bool :=
  let normed_score := finishedNormedScore s i c
  if s.num_beams = s.K then
    if normed_score < s.min_normed_scores then (s, true)
    else
      let rw := replaceWorst s normed_score
      (commitFinished rw.1 old_cum_log_probs c rw.2 normed_score, false)
  else (commitFinished s old_cum_log_probs c s.num_beams normed_score, false)

/-- Lines 299-315: accept a candidate as live beam `selected_beams`: write
the (absolute) token id at the beam's current position, optionally the
per-step log-probability, and the new cumulative log-probability. -/
def addLive (s : BeamState) (old_cum_log_probs : ℕ → ℚ) (selected_beams : ℕ)
    (c : Cand) : BeamState :=
  let current_step := s.sequence_lengths selected_beams
  { s with
    output_ids_src := Function.update s.output_ids_src selected_beams
      (Function.update (s.output_ids_src selected_beams) current_step c.tok)
    log_probs_src :=
      if s.hasLogProbsSrc then
        Function.update s.log_probs_src current_step
          (Function.update (s.log_probs_src current_step) selected_beams
            (c.raw - old_cum_log_probs ((c.tok / s.vocab_size) % s.K)))
      else s.log_probs_src
    cum_log_probs_src := Function.update s.cum_log_probs_src selected_beams c.raw }

/-- The sequential candidate loop (lines 220-328) of thread 0, iterating the
loop counter `i` and `selected_beams` over the `2K` candidates, with the two
break points of the source (full-ledger rejection, and
`selected_beams >= K` at the end of each iteration).  Returns the state and
the final `selected_beams`. -/
def selectLoop (old_cum_log_probs : ℕ → ℚ) :
    BeamState → ℕ → ℕ → List Cand → BeamState × ℕ
  | s, _, selected_beams, [] => (s, selected_beams)
  | s, i, selected_beams, c :: rest =>
    if i < s.K ∧ s.beamSearchEnabled = true ∧ isEndToken s c = true then
      let r := tryAddFinished s old_cum_log_probs i c
      if r.2 then (r.1, r.1.K)
      else if r.1.K ≤ selected_beams then (r.1, selected_beams)
      else selectLoop old_cum_log_probs r.1 (i + 1) selected_beams rest
    else if i < s.K ∨ (s.beamSearchEnabled = true ∧ ¬ isEndToken s c = true) then
      let s1 := addLive s old_cum_log_probs selected_beams c
      if s1.K ≤ selected_beams + 1 then (s1, selected_beams + 1)
      else selectLoop old_cum_log_probs s1 (i + 1) (selected_beams + 1) rest
    else
      if s.K ≤ selected_beams then (s, selected_beams)
      else selectLoop old_cum_log_probs s (i + 1) selected_beams rest

/-- Lines 331-369: update `is_done` after the selection loop.  With fewer
than `K` finished hypotheses the request is not done; otherwise the
early-stopping mode decides: `1` is done immediately, `0` compares the
worst stored normed score with beam 0's cumulative log-probability
normalized at its current generated length, and every other value (HF's
"never") runs the same comparison at the maximal possible generated length
when the length penalty is positive. -/
def updateIsDone (s : BeamState) : BeamState :=
  if s.num_beams < s.K then { s with is_done := false }
  else if s.early_stopping = 1 then { s with is_done := true }
  else if s.early_stopping = 0 then
    let seq_len : ℤ := (s.sequence_lengths 0 : ℤ) - (s.input_length : ℤ)
    let highest_attainable_score := s.lenPen (s.cum_log_probs_src 0) seq_len
    { s with is_done := decide (highest_attainable_score ≤ s.min_normed_scores) }
  else
    let seq_len : ℤ :=
      if 0 < s.length_penalty then (s.max_seq_len : ℤ) - (s.input_length : ℤ)
      else (s.sequence_lengths 0 : ℤ) - (s.input_length : ℤ)
    let highest_attainable_score := s.lenPen (s.cum_log_probs_src 0) seq_len
    { s with is_done := decide (highest_attainable_score ≤ s.min_normed_scores) }

/-- One execution of `batch_topk_kernel` for one request: initialize the
worst score when the ledger is empty, return immediately when it is already
full (lines 161-174), otherwise snapshot the cumulative log-probabilities
(`old_cum_log_probs`, lines 155-158), run the candidate loop and update
`is_done` (beam search enabled), or run the loop alone (beam search
disabled, where neither the ledger nor `is_done` exists). -/
def batch_topk_kernel (s : BeamState) (cands : List Cand) : BeamState :=
  if s.beamSearchEnabled then
    if s.num_beams = 0 then
      let s0 := { s with min_normed_scores := MAX_T_VAL }
      updateIsDone (selectLoop s0.cum_log_probs_src s0 0 0 cands).1
    else if s.num_beams = s.K then s
    else updateIsDone (selectLoop s.cum_log_probs_src s 0 0 cands).1
  else (selectLoop s.cum_log_probs_src s 0 0 cands).1

/-! ## Ledger invariant and auxiliary definitions for the claims -/

/-- The finished-hypothesis ledger invariant of a request: at most `K`
stored hypotheses, `min_normed_scores` is the `FLT_MAX`-seeded minimum of
the stored normed scores, and (as for every float) each stored score is at
most `FLT_MAX`. -/
def BeamInv (s : BeamState) : Prop :=
  s.num_beams ≤ s.K
  ∧ s.min_normed_scores = minFold s.normed_scores s.num_beams
  ∧ ∀ j < s.num_beams, s.normed_scores j ≤ MAX_T_VAL

/-- Generated length of live beam 0 used by the `early_stopping == 0`
completion test (line 350). -/
def currentLength (s : BeamState) : ℤ :=
  (s.sequence_lengths 0 : ℤ) - (s.input_length : ℤ)

/-- Generated length used by the `early_stopping == "never"` completion
test (lines 357-364): the maximal possible future length when the length
penalty is positive, the current length otherwise. -/
def neverLength (s : BeamState) : ℤ :=
  if 0 < s.length_penalty then (s.max_seq_len : ℤ) - (s.input_length : ℤ)
  else currentLength s

/-- Score assignment of a finished beam in the three reduction variants:
maximal representable value for the end token, minimal for everything
else. -/
def finished_replacement (end_id : ℕ) : ℕ → ℚ :=
  fun id => if id = end_id then MAX_T_VAL else -MAX_T_VAL

/-! ## Concrete example data used by witnesses and counterexamples -/

/-- A concrete request state: beam width 2, a full ledger holding scores 5
(slot 0, the worst) and 9 (slot 1), minimum 5.  The normalization function
models a zero length penalty (`apply_length_penalty` returns its first
argument). -/
def exState : BeamState where
  K := 2
  vocab_size := 10
  end_id := 3
  early_stopping := 1
  length_penalty := 0
  lenPen := fun v _ => v
  input_length := 1
  max_seq_len := 6
  beamSearchEnabled := true
  hasLogProbsTgt := true
  hasLogProbsSrc := true
  sequence_lengths := fun _ => 2
  cum_log_probs_src := fun _ => 0
  finishedBeam := fun _ => false
  output_ids_src := fun _ _ => 7
  parent_ids_src := fun _ _ => 0
  log_probs_src := fun _ _ => 0
  num_beams := 2
  min_normed_scores := 5
  normed_scores := fun j => if j = 0 then 5 else if j = 1 then 9 else 0
  seq_len_tgt := fun _ => 0
  cum_log_probs_tgt := fun _ => 42
  output_ids_tgt := fun _ _ => 0
  log_probs_tgt := fun _ _ => 0
  is_done := false

/-- An end-of-sequence candidate (token id 3 = `end_id`, raw and adjusted
score 5) whose normalized score equals `exState`'s stored minimum. -/
def exCand : Cand where
  tok := 3
  val := 5
  raw := 5

/-- Variant of `exState` with one stored hypothesis and a normalization
function that is bounded by `MAX_T_VAL`. -/
def exStateOne : BeamState :=
  { exState with num_beams := 1, lenPen := fun _ _ => 0, min_normed_scores := 5 }

/-! ## Theorems -/

/-- C6: the length-penalty normalization equals `score / length ^ penalty`
for every score, generated length and penalty, and in particular returns the
unnormalized score when the penalty is 0 or the length is 1. -/
theorem apply_length_penalty_spec (log_prob : ℝ) (length : ℕ) (length_penalty : ℝ) :
    apply_length_penalty log_prob length length_penalty
      = log_prob / (length : ℝ) ^ length_penalty
    ∧ apply_length_penalty log_prob 1 length_penalty = log_prob
    ∧ apply_length_penalty log_prob length 0 = log_prob := by
  refine ⟨?_, ?_, ?_⟩
  · unfold apply_length_penalty
    split_ifs with h
    · rcases h with h | h
      · rw [h, Real.rpow_zero, div_one]
      · rw [h, Nat.cast_one, Real.one_rpow, div_one]
    · rfl
  · unfold apply_length_penalty
    rw [if_pos (Or.inr rfl)]
  · unfold apply_length_penalty
    rw [if_pos (Or.inl rfl)]

theorem reduce_md_op_eq (a b : MD) :
    reduce_md_op a b =
      ⟨max a.m b.m,
        a.d * Real.exp (a.m - max a.m b.m) + b.d * Real.exp (b.m - max a.m b.m)⟩ := by
  unfold reduce_md_op
  split_ifs with h
  · rw [max_eq_left (le_of_lt h)]
    simp only [MD.mk.injEq, sub_self, Real.exp_zero, mul_one]
  · rw [max_eq_right (not_lt.mp h)]
    simp only [MD.mk.injEq, sub_self, Real.exp_zero, mul_one, true_and]
    exact add_comm _ _

theorem reduce_md_op_commutative (a b : MD) : reduce_md_op a b = reduce_md_op b a := by
  rw [reduce_md_op_eq, reduce_md_op_eq, max_comm b.m a.m]
  simp only [MD.mk.injEq, true_and]
  exact add_comm _ _

theorem reduce_md_op_associative (a b c : MD) :
    reduce_md_op (reduce_md_op a b) c = reduce_md_op a (reduce_md_op b c) := by
  rw [reduce_md_op_eq a b, reduce_md_op_eq b c, reduce_md_op_eq, reduce_md_op_eq]
  simp only [MD.mk.injEq]
  constructor
  · exact max_assoc _ _ _
  · rw [show max (max a.m b.m) c.m = max a.m (max b.m c.m) from max_assoc _ _ _]
    rw [add_mul, add_mul, mul_assoc, mul_assoc, mul_assoc, mul_assoc]
    simp only [← Real.exp_add, sub_add_sub_cancel]
    ring

/-- C4 counterexample: the combine formula exactly as the specification
writes it (`d: b.d + a.d * exp(a.m - b.m)`) is not commutative: swapping the
arguments `(m = 1, d = 1)` and `(m = 0, d = 0)` changes the result. -/
theorem combine_spec_not_commutative :
    ¬ combine_spec ⟨1, 1⟩ ⟨0, 0⟩ = combine_spec ⟨0, 0⟩ ⟨1, 1⟩ := by
  intro h
  have hd := congrArg MD.d h
  simp only [combine_spec] at hd
  norm_num at hd

/-- C4 (amended): the combine operation as implemented (`reduce_md_op`
selects the state with the larger running max and rescales the other
state's denominator) is commutative and associative over the reals, so
folds of softmax-normalizer states are independent of the fold order (in
particular invariant under permutation of the folded sequence). -/
theorem reduce_md_op_comm_assoc_fold :
    (∀ a b : MD, reduce_md_op a b = reduce_md_op b a)
    ∧ (∀ a b c : MD, reduce_md_op (reduce_md_op a b) c = reduce_md_op a (reduce_md_op b c))
    ∧ (∀ (init : MD) (l l' : List MD), l.Perm l' →
        l.foldl reduce_md_op init = l'.foldl reduce_md_op init) := by
  refine ⟨reduce_md_op_commutative, reduce_md_op_associative, ?_⟩
  intro init l l' h
  exact @List.Perm.foldl_op_eq _ _ ⟨reduce_md_op_associative⟩ ⟨reduce_md_op_commutative⟩ _ _ _ h

theorem log_beam_width_lt_iff (beam_width k : ℕ) (hk : 0 < k) :
    log_beam_width beam_width < k ↔ beam_width - 1 < 2 ^ k := by
  unfold log_beam_width
  by_cases h : beam_width - 1 = 0
  · have h0 : Nat.log2 0 = 0 := by simp [Nat.log2]
    rw [h, h0]
    exact iff_of_true hk (by positivity)
  · exact Nat.log2_lt h

/-- C5: beam widths above the compiled maximum (64, or 8 under
`FAST_BUILD`) make `invokeTopkSoftMax` throw an error naming the beam width
(dispatching no kernel), beam widths within range dispatch a kernel whose
compile-time capacity `MAX_K` is at least the beam width, and the top-k
sampling path rejects top-k 1025 against the supported maximum 1024. -/
theorem invokeTopkSoftMax_spec (fast_build : Bool) (beam_width : ℕ) :
    ((fast_build = false ∧ 64 < beam_width) ∨ (fast_build = true ∧ 8 < beam_width) →
      invokeTopkSoftMax fast_build beam_width
        = .error (.unsupportedBeamWidth beam_width))
    ∧ (beam_width ≤ 8 →
      ∃ max_k, invokeTopkSoftMax fast_build beam_width = .ok max_k ∧ beam_width ≤ max_k)
    ∧ (fast_build = false → beam_width ≤ 64 →
      ∃ max_k, invokeTopkSoftMax fast_build beam_width = .ok max_k ∧ beam_width ≤ max_k)
    ∧ invokeBatchTopKSamplingCheck 1025 = .error (.unsupportedTopK 1025 1024) := by
  refine ⟨?_, ?_, ?_, rfl⟩
  · rintro (⟨hf, hbw⟩ | ⟨hf, hbw⟩)
    · have h6 : ¬ log_beam_width beam_width < 6 := by
        rw [log_beam_width_lt_iff _ _ (by norm_num)]
        omega
      unfold invokeTopkSoftMax
      rw [if_neg (by omega), if_neg (by omega),
        if_neg (fun hco => by have := hco.2; omega),
        if_neg (fun hco => by have := hco.2; omega),
        if_neg (fun hco => by have := hco.2; omega)]
    · have h3 : ¬ log_beam_width beam_width < 3 := by
        rw [log_beam_width_lt_iff _ _ (by norm_num)]
        omega
      unfold invokeTopkSoftMax
      rw [if_neg (by omega), if_neg (by omega),
        if_neg (fun hco => by rw [hf] at hco; exact absurd hco.1 (by simp)),
        if_neg (fun hco => by rw [hf] at hco; exact absurd hco.1 (by simp)),
        if_neg (fun hco => by rw [hf] at hco; exact absurd hco.1 (by simp))]
  · intro hbw
    by_cases h4 : beam_width ≤ 4
    · have hlt : log_beam_width beam_width < 2 := by
        rw [log_beam_width_lt_iff _ _ (by norm_num)]
        omega
      refine ⟨4, ?_, by omega⟩
      unfold invokeTopkSoftMax
      rw [if_pos (by omega)]
    · have hlt : log_beam_width beam_width < 3 := by
        rw [log_beam_width_lt_iff _ _ (by norm_num)]
        omega
      have hge : ¬ log_beam_width beam_width < 2 := by
        rw [log_beam_width_lt_iff _ _ (by norm_num)]
        omega
      refine ⟨8, ?_, by omega⟩
      unfold invokeTopkSoftMax
      rw [if_neg (by omega), if_pos (by omega)]
  · intro hf hbw
    by_cases h4 : beam_width ≤ 4
    · have hlt : log_beam_width beam_width < 2 := by
        rw [log_beam_width_lt_iff _ _ (by norm_num)]
        omega
      exact ⟨4, by unfold invokeTopkSoftMax; rw [if_pos (by omega)], by omega⟩
    · by_cases h8 : beam_width ≤ 8
      · have hlt : log_beam_width beam_width < 3 := by
          rw [log_beam_width_lt_iff _ _ (by norm_num)]
          omega
        have hge : ¬ log_beam_width beam_width < 2 := by
          rw [log_beam_width_lt_iff _ _ (by norm_num)]
          omega
        refine ⟨8, ?_, by omega⟩
        unfold invokeTopkSoftMax
        rw [if_neg (by omega), if_pos (by omega)]
      · by_cases h16 : beam_width ≤ 16
        · have hlt : log_beam_width beam_width < 4 := by
            rw [log_beam_width_lt_iff _ _ (by norm_num)]
            omega
          have hge : ¬ log_beam_width beam_width < 3 := by
            rw [log_beam_width_lt_iff _ _ (by norm_num)]
            omega
          refine ⟨16, ?_, by omega⟩
          unfold invokeTopkSoftMax
          rw [if_neg (by omega), if_neg (by omega), if_pos ⟨hf, by omega⟩]
        · by_cases h32 : beam_width ≤ 32
          · have hlt : log_beam_width beam_width < 5 := by
              rw [log_beam_width_lt_iff _ _ (by norm_num)]
              omega
            have hge : ¬ log_beam_width beam_width < 4 := by
              rw [log_beam_width_lt_iff _ _ (by norm_num)]
              omega
            refine ⟨32, ?_, by omega⟩
            unfold invokeTopkSoftMax
            rw [if_neg (by omega), if_neg (by omega),
              if_neg (fun hco => by have := hco.2; omega), if_pos ⟨hf, by omega⟩]
          · have hlt : log_beam_width beam_width < 6 := by
              rw [log_beam_width_lt_iff _ _ (by norm_num)]
              omega
            have hge : ¬ log_beam_width beam_width < 5 := by
              rw [log_beam_width_lt_iff _ _ (by norm_num)]
              omega
            refine ⟨64, ?_, by omega⟩
            unfold invokeTopkSoftMax
            rw [if_neg (by omega), if_neg (by omega),
              if_neg (fun hco => by have := hco.2; omega),
              if_neg (fun hco => by have := hco.2; omega), if_pos ⟨hf, by omega⟩]

/-- C5 witness: beam width 65 is rejected with an error naming it, beam
width 64 dispatches a kernel with capacity at least 64. -/
theorem invokeTopkSoftMax_spec_witness :
    invokeTopkSoftMax false 65 = .error (.unsupportedBeamWidth 65)
    ∧ ∃ max_k, invokeTopkSoftMax false 64 = .ok max_k ∧ 64 ≤ max_k := by
  refine ⟨?_, ?_⟩
  · exact (invokeTopkSoftMax_spec false 65).1 (Or.inl ⟨rfl, by norm_num⟩)
  · exact (invokeTopkSoftMax_spec false 64).2.2.1 rfl (by norm_num)

theorem arg_max_keep (end_id x : ℕ) :
    arg_max (end_id, MAX_T_VAL) (x, finished_replacement end_id x)
      = (end_id, MAX_T_VAL) := by
  unfold arg_max finished_replacement
  by_cases hx : x = end_id
  · subst hx
    rw [if_pos rfl, if_neg]
    rintro (h | ⟨-, h⟩)
    · exact absurd h (lt_irrefl _)
    · exact absurd h (lt_irrefl _)
  · rw [if_neg hx, if_neg]
    rintro (h | ⟨h, -⟩)
    · have : (0:ℚ) < MAX_T_VAL := by norm_num [MAX_T_VAL]
      simp only [] at h
      linarith
    · have : (0:ℚ) < MAX_T_VAL := by norm_num [MAX_T_VAL]
      simp only [] at h
      linarith

theorem arg_max_post (end_id : ℕ) (l : List ℕ) :
    (l.map (fun id => (id, finished_replacement end_id id))).foldl arg_max
      (end_id, MAX_T_VAL) = (end_id, MAX_T_VAL) := by
  induction l with
  | nil => rfl
  | cons x xs ih =>
    simp only [List.map_cons, List.foldl_cons, arg_max_keep]
    exact ih

theorem arg_max_pre (end_id : ℕ) :
    ∀ (l : List ℕ) (acc : ℕ × ℚ), end_id ∈ l → acc.2 < MAX_T_VAL →
      (l.map (fun id => (id, finished_replacement end_id id))).foldl arg_max acc
        = (end_id, MAX_T_VAL) := by
  intro l
  induction l with
  | nil => intro acc h; exact absurd h (List.not_mem_nil end_id)
  | cons x xs ih =>
    intro acc hmem hacc
    simp only [List.map_cons, List.foldl_cons]
    by_cases hx : x = end_id
    · subst hx
      have hstep : arg_max acc (x, finished_replacement x x) = (x, MAX_T_VAL) := by
        unfold arg_max finished_replacement
        rw [if_pos rfl, if_pos (Or.inl hacc)]
      rw [hstep]
      exact arg_max_post x xs
    · have hmem' : end_id ∈ xs := by
        rcases List.mem_cons.mp hmem with h | h
        · exact absurd h.symm hx
        · exact h
      have hlt : (arg_max acc (x, finished_replacement end_id x)).2 < MAX_T_VAL := by
        unfold arg_max finished_replacement
        rw [if_neg hx]
        split_ifs
        · norm_num [MAX_T_VAL]
        · exact hacc
      exact ih _ hmem' hlt

/-- C10: for a finished slot-beam, all three reduction variants replace the
logits wholesale: the end token gets the maximal representable score,
every other token the minimal one, and the top-ranked candidate is the end
token with the maximal score, for arbitrary logits and bias. -/
theorem finished_beam_forces_end_token (vocab_size end_id : ℕ)
    (log_probs bias : ℕ → ℚ) (obias : Option (ℕ → ℚ)) (hend : end_id < vocab_size) :
    (∀ id, softmax_topk_elem true log_probs bias end_id id
        = if id = end_id then MAX_T_VAL else -MAX_T_VAL)
    ∧ (∀ id, stage1_base_elem true log_probs obias end_id id
        = if id = end_id then MAX_T_VAL else -MAX_T_VAL)
    ∧ (∀ id, stage1_fast_elem true log_probs obias end_id id
        = if id = end_id then MAX_T_VAL else -MAX_T_VAL)
    ∧ top_candidate (softmax_topk_elem true log_probs bias end_id) vocab_size
        = (end_id, MAX_T_VAL)
    ∧ top_candidate (stage1_base_elem true log_probs obias end_id) vocab_size
        = (end_id, MAX_T_VAL)
    ∧ top_candidate (stage1_fast_elem true log_probs obias end_id) vocab_size
        = (end_id, MAX_T_VAL) := by
  have h1 : softmax_topk_elem true log_probs bias end_id = finished_replacement end_id := by
    funext id
    simp [softmax_topk_elem, finished_replacement]
  have h2 : stage1_base_elem true log_probs obias end_id = finished_replacement end_id := by
    funext id
    simp [stage1_base_elem, finished_replacement]
  have h3 : stage1_fast_elem true log_probs obias end_id = finished_replacement end_id := by
    funext id
    simp [stage1_fast_elem, finished_replacement]
  have htop : top_candidate (finished_replacement end_id) vocab_size = (end_id, MAX_T_VAL) := by
    unfold top_candidate
    exact arg_max_pre end_id (List.range vocab_size) _ (List.mem_range.mpr hend)
      (by norm_num [MAX_T_VAL])
  refine ⟨?_, ?_, ?_, ?_, ?_, ?_⟩
  · intro id
    rw [h1]
    rfl
  · intro id
    rw [h2]
    rfl
  · intro id
    rw [h3]
    rfl
  · rw [h1, htop]
  · rw [h2, htop]
  · rw [h3, htop]

/-- C10 witness: vocabulary of 4 tokens, end token 2, arbitrary concrete
logits. -/
theorem finished_beam_forces_end_token_witness :
    top_candidate (softmax_topk_elem true (fun id => (id : ℚ)) (fun _ => 1) 2) 4
      = (2, MAX_T_VAL) := by
  exact (finished_beam_forces_end_token 4 2 (fun id => (id : ℚ)) (fun _ => 1) none
    (by norm_num)).2.2.2.1

/-- C7: after setup on a group of `tpSize` participants, the peer-pointer
array of the participant of rank `tpRank` has exactly `tpSize` entries,
entry `tpRank` is its own local allocation and every other entry the mapped
foreign allocation of that rank; teardown closes exactly the handles of the
other `tpSize - 1` ranks and leaves the local allocation untouched. -/
theorem ipcMemory_spec {α : Type} (tpSize tpRank : ℕ) (localPtr : α)
    (openHandle : ℕ → α) (hrank : tpRank < tpSize) :
    (allocateIpcMemory tpSize tpRank localPtr openHandle).length = tpSize
    ∧ (allocateIpcMemory tpSize tpRank localPtr openHandle)[tpRank]? = some localPtr
    ∧ (∀ j, j < tpSize → j ≠ tpRank →
        (allocateIpcMemory tpSize tpRank localPtr openHandle)[j]? = some (openHandle j))
    ∧ (destroyIpcMemory tpSize tpRank).length = tpSize - 1
    ∧ (∀ j, j ∈ destroyIpcMemory tpSize tpRank ↔ j < tpSize ∧ j ≠ tpRank)
    ∧ tpRank ∉ destroyIpcMemory tpSize tpRank := by
  have hmem : ∀ j, j ∈ destroyIpcMemory tpSize tpRank ↔ j < tpSize ∧ j ≠ tpRank := by
    intro j
    unfold destroyIpcMemory
    rw [List.mem_filter, List.mem_range]
    simp
  refine ⟨?_, ?_, ?_, ?_, hmem, ?_⟩
  · unfold allocateIpcMemory
    rw [List.length_map, List.length_range]
  · unfold allocateIpcMemory
    rw [List.getElem?_map, List.getElem?_range hrank]
    simp
  · intro j hj hne
    unfold allocateIpcMemory
    rw [List.getElem?_map, List.getElem?_range hj]
    simp [hne]
  · have herase : destroyIpcMemory tpSize tpRank = (List.range tpSize).erase tpRank := by
      rw [(List.nodup_range tpSize).erase_eq_filter]
      unfold destroyIpcMemory
      apply List.filter_congr
      intro x _
      simp only [ne_eq, bne]
      by_cases h : x = tpRank <;> simp [h]
    rw [herase, List.length_erase_of_mem (List.mem_range.mpr hrank), List.length_range]
  · intro hcon
    exact ((hmem tpRank).mp hcon).2 rfl

/-- C7 witness: three participants, rank 1. -/
theorem ipcMemory_spec_witness :
    (allocateIpcMemory 3 1 (100 : ℕ) (fun r => r)).length = 3
    ∧ (allocateIpcMemory 3 1 (100 : ℕ) (fun r => r))[1]? = some 100
    ∧ (destroyIpcMemory 3 1).length = 2
    ∧ 1 ∉ destroyIpcMemory 3 1 := by
  have h := ipcMemory_spec 3 1 (100 : ℕ) (fun r => r) (by norm_num)
  exact ⟨h.1, h.2.1, h.2.2.2.1, h.2.2.2.2.2⟩

theorem handlePeerStatus_ok_iff (e : CudaError) :
    handlePeerStatus e = .ok () ↔
      (e = .success ∨ e = .peerAccessAlreadyEnabled ∨ e = .peerAccessNotEnabled) := by
  cases e <;> simp [handlePeerStatus, cudaCheck]

theorem setPeerAccessLoop_ok_iff (status : ℕ → CudaError) (srcNode : ℕ) (l : List ℕ) :
    setPeerAccessLoop status srcNode l = .ok () ↔
      ∀ d ∈ l, d ≠ srcNode → handlePeerStatus (status d) = .ok () := by
  induction l with
  | nil => simp [setPeerAccessLoop]
  | cons d rest ih =>
    unfold setPeerAccessLoop
    by_cases hd : d = srcNode
    · rw [if_pos hd, ih]
      constructor
      · intro h x hx hxs
        rcases List.mem_cons.mp hx with h' | h'
        · exact absurd (h' ▸ hd) hxs
        · exact h x h' hxs
      · intro h x hx hxs
        exact h x (List.mem_cons_of_mem d hx) hxs
    · rw [if_neg hd]
      cases hok : handlePeerStatus (status d) with
      | ok u =>
        cases u
        show setPeerAccessLoop status srcNode rest = Except.ok () ↔ _
        rw [ih]
        constructor
        · intro h x hx hxs
          rcases List.mem_cons.mp hx with h' | h'
          · rw [h']
            exact hok
          · exact h x h' hxs
        · intro h x hx hxs
          exact h x (List.mem_cons_of_mem d hx) hxs
      | error e =>
        show Except.error e = Except.ok () ↔ _
        constructor
        · intro h
          exact absurd h (by simp)
        · intro h
          have hcon := h d (List.mem_cons_self d rest) hd
          rw [hok] at hcon
          exact absurd hcon (by simp)

/-- C8: during peer-access configuration the already-enabled and
not-enabled statuses are swallowed as benign no-ops, every other failure
status raises, and the whole loop succeeds exactly when every pair of
distinct ranks reports success or one of the two benign statuses. -/
theorem setPeerAccess_spec :
    (handlePeerStatus .peerAccessAlreadyEnabled = .ok ()
      ∧ handlePeerStatus .peerAccessNotEnabled = .ok ()
      ∧ handlePeerStatus .success = .ok ())
    ∧ (∀ e : CudaError, e ≠ .success → e ≠ .peerAccessAlreadyEnabled →
        e ≠ .peerAccessNotEnabled → handlePeerStatus e = .error e)
    ∧ (∀ (tensorParallelism srcNode : ℕ) (status : ℕ → CudaError),
        setPeerAccess tensorParallelism srcNode status = .ok () ↔
          ∀ d, d < tensorParallelism → d ≠ srcNode →
            (status d = .success ∨ status d = .peerAccessAlreadyEnabled
              ∨ status d = .peerAccessNotEnabled)) := by
  refine ⟨⟨rfl, rfl, rfl⟩, ?_, ?_⟩
  · intro e h1 h2 h3
    cases e with
    | success => exact absurd rfl h1
    | peerAccessAlreadyEnabled => exact absurd rfl h2
    | peerAccessNotEnabled => exact absurd rfl h3
    | other code => rfl
  · intro tp src status
    unfold setPeerAccess
    rw [setPeerAccessLoop_ok_iff]
    constructor
    · intro h d hd hds
      exact (handlePeerStatus_ok_iff _).mp (h d (List.mem_range.mpr hd) hds)
    · intro h d hd hds
      exact (handlePeerStatus_ok_iff _).mpr (h d (List.mem_range.mp hd) hds)

/-- C8 witness: a two-rank group where the peer pair reports
already-enabled succeeds; a pair reporting a genuine failure raises it. -/
theorem setPeerAccess_spec_witness :
    setPeerAccess 2 0 (fun _ => .peerAccessAlreadyEnabled) = .ok ()
    ∧ handlePeerStatus (.other 77) = .error (.other 77) := by
  have h := setPeerAccess_spec
  refine ⟨?_, ?_⟩
  · exact (h.2.2 2 0 (fun _ => .peerAccessAlreadyEnabled)).mpr
      (fun d _ _ => Or.inr (Or.inl rfl))
  · exact h.2.1 (.other 77) (by simp) (by simp) (by simp)

theorem minFold_succ (f : ℕ → ℚ) (n : ℕ) :
    minFold f (n + 1) = min (minFold f n) (f n) := by
  unfold minFold
  rw [List.range_succ, List.map_append, List.foldl_append]
  rfl

theorem minFold_congr (f g : ℕ → ℚ) (n : ℕ) (h : ∀ j, j < n → f j = g j) :
    minFold f n = minFold g n := by
  induction n with
  | zero => rfl
  | succ m ih =>
    rw [minFold_succ, minFold_succ, ih (fun j hj => h j (hj.trans (Nat.lt_succ_self m))),
      h m (Nat.lt_succ_self m)]

theorem minFold_le (f : ℕ → ℚ) (n j : ℕ) (hj : j < n) : minFold f n ≤ f j := by
  induction n with
  | zero => exact absurd hj (Nat.not_lt_zero j)
  | succ m ih =>
    rw [minFold_succ]
    rcases Nat.lt_succ_iff_lt_or_eq.mp hj with h | h
    · exact le_trans (min_le_left _ _) (ih h)
    · rw [h]
      exact min_le_right _ _

theorem minFold_attained (f : ℕ → ℚ) (n : ℕ) (hn : 0 < n)
    (hb : ∀ j, j < n → f j ≤ MAX_T_VAL) : ∃ j, j < n ∧ minFold f n = f j := by
  induction n with
  | zero => exact absurd hn (lt_irrefl 0)
  | succ m ih =>
    rcases Nat.eq_zero_or_pos m with hm | hm
    · subst hm
      refine ⟨0, Nat.zero_lt_one, ?_⟩
      rw [minFold_succ]
      exact min_eq_right (hb 0 Nat.zero_lt_one)
    · rcases ih hm (fun j hj => hb j (hj.trans (Nat.lt_succ_self m))) with ⟨j, hj, hje⟩
      rw [minFold_succ]
      rcases le_total (minFold f m) (f m) with h | h
      · exact ⟨j, hj.trans (Nat.lt_succ_self m), by rw [min_eq_left h, hje]⟩
      · exact ⟨m, Nat.lt_succ_self m, min_eq_right h⟩

theorem commitFinished_fields (s : BeamState) (old_cum_log_probs : ℕ → ℚ) (c : Cand)
    (beam_idx : ℕ) (normed_score : ℚ) :
    (commitFinished s old_cum_log_probs c beam_idx normed_score).num_beams = s.num_beams + 1
    ∧ (commitFinished s old_cum_log_probs c beam_idx normed_score).normed_scores
        = Function.update s.normed_scores beam_idx normed_score
    ∧ (commitFinished s old_cum_log_probs c beam_idx normed_score).min_normed_scores
        = min s.min_normed_scores normed_score
    ∧ (commitFinished s old_cum_log_probs c beam_idx normed_score).K = s.K
    ∧ (commitFinished s old_cum_log_probs c beam_idx normed_score).lenPen = s.lenPen := by
  unfold commitFinished
  exact ⟨rfl, rfl, rfl, rfl, rfl⟩

theorem addLive_fields (s : BeamState) (old_cum_log_probs : ℕ → ℚ) (selected_beams : ℕ)
    (c : Cand) :
    (addLive s old_cum_log_probs selected_beams c).num_beams = s.num_beams
    ∧ (addLive s old_cum_log_probs selected_beams c).normed_scores = s.normed_scores
    ∧ (addLive s old_cum_log_probs selected_beams c).min_normed_scores = s.min_normed_scores
    ∧ (addLive s old_cum_log_probs selected_beams c).K = s.K
    ∧ (addLive s old_cum_log_probs selected_beams c).lenPen = s.lenPen := by
  unfold addLive
  exact ⟨rfl, rfl, rfl, rfl, rfl⟩

theorem replaceWorst_eq_some (s : BeamState) (normed_score : ℚ) (j : ℕ)
    (hfind : (List.range s.K).find?
        (fun j => s.normed_scores j = s.min_normed_scores) = some j) :
    replaceWorst s normed_score =
      ({ s with num_beams := s.num_beams - 1,
                normed_scores := Function.update s.normed_scores j normed_score,
                min_normed_scores :=
                  minFold (Function.update s.normed_scores j normed_score) s.K }, j) := by
  unfold replaceWorst
  rw [hfind]


theorem tryAddFinished_inv (s : BeamState) (old_cum_log_probs : ℕ → ℚ) (i : ℕ) (c : Cand)
    (hK : 0 < s.K) (hinv : BeamInv s)
    (hlp : ∀ v n, s.lenPen v n ≤ MAX_T_VAL) :
    BeamInv (tryAddFinished s old_cum_log_probs i c).1
    ∧ (tryAddFinished s old_cum_log_probs i c).1.K = s.K
    ∧ (tryAddFinished s old_cum_log_probs i c).1.lenPen = s.lenPen := by
  obtain ⟨h1, h2, h3⟩ := hinv
  have hns : finishedNormedScore s i c ≤ MAX_T_VAL := by
    unfold finishedNormedScore
    exact hlp _ _
  simp only [tryAddFinished]
  by_cases hfull : s.num_beams = s.K
  · rw [if_pos hfull]
    by_cases hlt : finishedNormedScore s i c < s.min_normed_scores
    · rw [if_pos hlt]
      exact ⟨⟨h1, h2, h3⟩, rfl, rfl⟩
    · rw [if_neg hlt]
      have hex : ∃ j, j < s.K ∧ s.normed_scores j = s.min_normed_scores := by
        rcases minFold_attained s.normed_scores s.num_beams (by omega) h3 with ⟨j, hj, hje⟩
        exact ⟨j, by omega, by rw [h2, hje]⟩
      rcases hfind : (List.range s.K).find?
          (fun j => s.normed_scores j = s.min_normed_scores) with _ | j
      · exfalso
        rcases hex with ⟨j, hj, hje⟩
        have hnone := List.find?_eq_none.mp hfind j (List.mem_range.mpr hj)
        simp [hje] at hnone
      · have hjlt : j < s.K := List.mem_range.mp (List.mem_of_find?_eq_some hfind)
        rw [replaceWorst_eq_some s _ j hfind]
        have hle : minFold (Function.update s.normed_scores j (finishedNormedScore s i c))
            s.K ≤ finishedNormedScore s i c := by
          have hmle := minFold_le (Function.update s.normed_scores j
            (finishedNormedScore s i c)) s.K j hjlt
          rwa [Function.update_same] at hmle
        refine ⟨⟨?_, ?_, ?_⟩, ?_, ?_⟩
        · show s.num_beams - 1 + 1 ≤ s.K
          omega
        · show min (minFold (Function.update s.normed_scores j (finishedNormedScore s i c))
              s.K) (finishedNormedScore s i c)
            = minFold (Function.update (Function.update s.normed_scores j
                (finishedNormedScore s i c)) j (finishedNormedScore s i c))
              (s.num_beams - 1 + 1)
          rw [Function.update_idem, min_eq_left hle, show s.num_beams - 1 + 1 = s.K by omega]
        · show ∀ j', j' < s.num_beams - 1 + 1 →
            Function.update (Function.update s.normed_scores j (finishedNormedScore s i c))
              j (finishedNormedScore s i c) j' ≤ MAX_T_VAL
          intro j' hj'
          rw [Function.update_idem]
          by_cases hjj : j' = j
          · rw [hjj, Function.update_same]
            exact hns
          · rw [Function.update_noteq hjj]
            exact h3 j' (by omega)
        · show s.K = s.K
          rfl
        · show s.lenPen = s.lenPen
          rfl
  · rw [if_neg hfull]
    have hn : s.num_beams < s.K := lt_of_le_of_ne h1 hfull
    refine ⟨⟨?_, ?_, ?_⟩, ?_, ?_⟩
    · show s.num_beams + 1 ≤ s.K
      omega
    · show min s.min_normed_scores (finishedNormedScore s i c)
        = minFold (Function.update s.normed_scores s.num_beams (finishedNormedScore s i c))
          (s.num_beams + 1)
      rw [minFold_succ,
        minFold_congr (Function.update s.normed_scores s.num_beams
            (finishedNormedScore s i c)) s.normed_scores s.num_beams
          (fun j hj => Function.update_noteq (by omega) _ _),
        Function.update_same, h2]
    · show ∀ j', j' < s.num_beams + 1 →
        Function.update s.normed_scores s.num_beams (finishedNormedScore s i c) j'
          ≤ MAX_T_VAL
      intro j' hj'
      by_cases hjj : j' = s.num_beams
      · rw [hjj, Function.update_same]
        exact hns
      · rw [Function.update_noteq hjj]
        exact h3 j' (by omega)
    · show s.K = s.K
      rfl
    · show s.lenPen = s.lenPen
      rfl

theorem selectLoop_inv (old_cum_log_probs : ℕ → ℚ) :
    ∀ (cands : List Cand) (s : BeamState) (i selected_beams : ℕ),
      BeamInv s → (∀ v n, s.lenPen v n ≤ MAX_T_VAL) →
      BeamInv (selectLoop old_cum_log_probs s i selected_beams cands).1
      ∧ (selectLoop old_cum_log_probs s i selected_beams cands).1.K = s.K := by
  intro cands
  induction cands with
  | nil =>
    intro s i sel hinv hlp
    exact ⟨hinv, rfl⟩
  | cons c rest ih =>
    intro s i sel hinv hlp
    simp only [selectLoop]
    by_cases hb1 : i < s.K ∧ s.beamSearchEnabled = true ∧ isEndToken s c = true
    · rw [if_pos hb1]
      have hK : 0 < s.K := lt_of_le_of_lt (Nat.zero_le i) hb1.1
      obtain ⟨hai, haK, haP⟩ := tryAddFinished_inv s old_cum_log_probs i c hK hinv hlp
      have hlp1 : ∀ v n, (tryAddFinished s old_cum_log_probs i c).1.lenPen v n
          ≤ MAX_T_VAL := by
        rw [haP]
        exact hlp
      by_cases hr : (tryAddFinished s old_cum_log_probs i c).2 = true
      · rw [if_pos hr]
        exact ⟨hai, haK⟩
      · rw [if_neg hr]
        by_cases hsel : (tryAddFinished s old_cum_log_probs i c).1.K ≤ sel
        · rw [if_pos hsel]
          exact ⟨hai, haK⟩
        · rw [if_neg hsel]
          obtain ⟨hli, hlK⟩ := ih (tryAddFinished s old_cum_log_probs i c).1 (i + 1)
            sel hai hlp1
          exact ⟨hli, by rw [hlK, haK]⟩
    · rw [if_neg hb1]
      by_cases hb2 : i < s.K ∨ (s.beamSearchEnabled = true ∧ ¬ isEndToken s c = true)
      · rw [if_pos hb2]
        have hinv1 : BeamInv (addLive s old_cum_log_probs sel c) := hinv
        have hlp1 : ∀ v n, (addLive s old_cum_log_probs sel c).lenPen v n ≤ MAX_T_VAL := hlp
        by_cases hsel : (addLive s old_cum_log_probs sel c).K ≤ sel + 1
        · rw [if_pos hsel]
          exact ⟨hinv1, rfl⟩
        · rw [if_neg hsel]
          obtain ⟨hli, hlK⟩ := ih (addLive s old_cum_log_probs sel c) (i + 1) (sel + 1)
            hinv1 hlp1
          exact ⟨hli, hlK⟩
      · rw [if_neg hb2]
        by_cases hsel : s.K ≤ sel
        · rw [if_pos hsel]
          exact ⟨hinv, rfl⟩
        · rw [if_neg hsel]
          exact ih s (i + 1) sel hinv hlp

theorem updateIsDone_inv (t : BeamState) (h : BeamInv t) : BeamInv (updateIsDone t) := by
  unfold updateIsDone
  split_ifs <;> exact h

theorem updateIsDone_K (t : BeamState) : (updateIsDone t).K = t.K := by
  unfold updateIsDone
  split_ifs <;> rfl

/-- C2: one execution of the hypothesis-selection step preserves
`numBeams <= K` (for the unchanged beam width `K`), and afterwards
`min_normed_scores` is exactly the `FLT_MAX`-seeded minimum over the
`numBeams` stored normed scores.  The entry hypotheses are the same
invariant (trivial for an empty ledger, whose minimum the kernel itself
reinitializes) together with the float-world bound that every normalized
score is at most `FLT_MAX`. -/
theorem batch_topk_kernel_ledger_invariant (s : BeamState) (cands : List Cand)
    (hbs : s.beamSearchEnabled = true)
    (h1 : s.num_beams ≤ s.K)
    (h2 : s.num_beams ≠ 0 → s.min_normed_scores = minFold s.normed_scores s.num_beams)
    (h3 : ∀ j, j < s.num_beams → s.normed_scores j ≤ MAX_T_VAL)
    (hlp : ∀ v n, s.lenPen v n ≤ MAX_T_VAL) :
    (batch_topk_kernel s cands).num_beams ≤ (batch_topk_kernel s cands).K
    ∧ (batch_topk_kernel s cands).K = s.K
    ∧ (batch_topk_kernel s cands).min_normed_scores
        = minFold (batch_topk_kernel s cands).normed_scores
            (batch_topk_kernel s cands).num_beams := by
  simp only [batch_topk_kernel]
  rw [if_pos hbs]
  by_cases h0 : s.num_beams = 0
  · rw [if_pos h0]
    have hinv0 : BeamInv { s with min_normed_scores := MAX_T_VAL } := by
      refine ⟨h1, ?_, h3⟩
      show MAX_T_VAL = minFold s.normed_scores s.num_beams
      rw [h0]
      rfl
    obtain ⟨hli, hlK⟩ := selectLoop_inv
      ({ s with min_normed_scores := MAX_T_VAL } : BeamState).cum_log_probs_src cands
      { s with min_normed_scores := MAX_T_VAL } 0 0 hinv0 hlp
    have hres := updateIsDone_inv _ hli
    refine ⟨hres.1, ?_, hres.2.1⟩
    rw [updateIsDone_K, hlK]
  · rw [if_neg h0]
    by_cases hfullc : s.num_beams = s.K
    · rw [if_pos hfullc]
      exact ⟨h1, rfl, h2 h0⟩
    · rw [if_neg hfullc]
      obtain ⟨hli, hlK⟩ := selectLoop_inv s.cum_log_probs_src cands s 0 0
        ⟨h1, h2 h0, h3⟩ hlp
      have hres := updateIsDone_inv _ hli
      refine ⟨hres.1, ?_, hres.2.1⟩
      rw [updateIsDone_K, hlK]

set_option maxRecDepth 8000 in
/-- C2 witness: a request with one stored hypothesis (score 5) and a
bounded normalization function, consuming one end-of-sequence candidate. -/
theorem batch_topk_kernel_ledger_invariant_witness :
    (batch_topk_kernel exStateOne [exCand]).num_beams
        ≤ (batch_topk_kernel exStateOne [exCand]).K
    ∧ (batch_topk_kernel exStateOne [exCand]).K = exStateOne.K
    ∧ (batch_topk_kernel exStateOne [exCand]).min_normed_scores
        = minFold (batch_topk_kernel exStateOne [exCand]).normed_scores
            (batch_topk_kernel exStateOne [exCand]).num_beams := by
  refine batch_topk_kernel_ledger_invariant exStateOne [exCand] rfl (by decide)
    (fun _ => by decide) ?_ ?_
  · intro j hj
    have h1 : exStateOne.num_beams = 1 := rfl
    rw [h1] at hj
    have hj0 : j = 0 := by omega
    rw [hj0]
    decide
  · intro v n
    show (0 : ℚ) ≤ MAX_T_VAL
    norm_num [MAX_T_VAL]

/-- C1 (amended): with a full ledger, an end-of-sequence candidate whose
normalized score is strictly below the stored minimum is discarded together
with all remaining candidates of the step (the kernel breaks out of the
candidate loop); a candidate scoring greater than *or equal to* the stored
minimum displaces the stored worst hypothesis (the first slot holding the
minimal score is overwritten with the new normalized score) and the
hypothesis count stays `K`.  In particular an exact tie is accepted, not
rejected. -/
theorem tryAddFinished_full_ledger (s : BeamState) (old_cum_log_probs : ℕ → ℚ) (i : ℕ)
    (c : Cand) (hfull : s.num_beams = s.K)
    (hmin : ∃ j, j < s.K ∧ s.normed_scores j = s.min_normed_scores) :
    (finishedNormedScore s i c < s.min_normed_scores →
      tryAddFinished s old_cum_log_probs i c = (s, true))
    ∧ (s.min_normed_scores ≤ finishedNormedScore s i c →
      (tryAddFinished s old_cum_log_probs i c).2 = false
      ∧ (tryAddFinished s old_cum_log_probs i c).1.num_beams = s.K
      ∧ ∃ j, j < s.K ∧ s.normed_scores j = s.min_normed_scores
          ∧ (tryAddFinished s old_cum_log_probs i c).1.normed_scores j
              = finishedNormedScore s i c) := by
  constructor
  · intro hlt
    simp only [tryAddFinished]
    rw [if_pos hfull, if_pos hlt]
  · intro hge
    have hnlt : ¬ finishedNormedScore s i c < s.min_normed_scores := not_lt.mpr hge
    simp only [tryAddFinished]
    rw [if_pos hfull, if_neg hnlt]
    rcases hfind : (List.range s.K).find?
        (fun j => s.normed_scores j = s.min_normed_scores) with _ | j
    · exfalso
      rcases hmin with ⟨j, hj, hje⟩
      have hnone := List.find?_eq_none.mp hfind j (List.mem_range.mpr hj)
      simp [hje] at hnone
    · have hjlt : j < s.K := List.mem_range.mp (List.mem_of_find?_eq_some hfind)
      have hjeq : s.normed_scores j = s.min_normed_scores := by
        have hthis := List.find?_some hfind
        simpa using hthis
      rw [replaceWorst_eq_some s _ j hfind]
      refine ⟨rfl, ?_, j, hjlt, hjeq, ?_⟩
      · show s.num_beams - 1 + 1 = s.K
        omega
      · show Function.update (Function.update s.normed_scores j
            (finishedNormedScore s i c)) j (finishedNormedScore s i c) j
          = finishedNormedScore s i c
        rw [Function.update_idem, Function.update_same]

set_option maxRecDepth 8000 in
/-- C1 counterexample: in the concrete full-ledger state `exState` (worst
stored score 5, stored in slot 0, whose raw cumulative log-probability
reads 42), the end-of-sequence candidate `exCand` normalizes to exactly the
stored minimum 5; the claim says it must be rejected, but the kernel
accepts it and overwrites the stored worst hypothesis (slot 0's raw
cumulative log-probability becomes the candidate's 5). -/
theorem equal_normed_score_displaces_worst :
    exState.num_beams = exState.K
    ∧ isEndToken exState exCand = true
    ∧ finishedNormedScore exState 1 exCand = exState.min_normed_scores
    ∧ (tryAddFinished exState exState.cum_log_probs_src 1 exCand).2 = false
    ∧ exState.cum_log_probs_tgt 0 = 42
    ∧ (tryAddFinished exState exState.cum_log_probs_src 1 exCand).1.cum_log_probs_tgt 0
        = 5 := by
  refine ⟨rfl, rfl, by decide, ?_, by decide, ?_⟩ <;> decide

/-- C1 witness: the amended theorem applied to `exState` and the
tie-scoring candidate `exCand`. -/
theorem tryAddFinished_full_ledger_witness :
    (tryAddFinished exState exState.cum_log_probs_src 1 exCand).2 = false
    ∧ (tryAddFinished exState exState.cum_log_probs_src 1 exCand).1.num_beams = exState.K
    ∧ ∃ j, j < exState.K ∧ exState.normed_scores j = exState.min_normed_scores
        ∧ (tryAddFinished exState exState.cum_log_probs_src 1 exCand).1.normed_scores j
            = finishedNormedScore exState 1 exCand := by
  exact (tryAddFinished_full_ledger exState exState.cum_log_probs_src 1 exCand rfl
    ⟨0, by decide, by decide⟩).2 (by decide)

/-- C3: with fewer than `K` finished hypotheses a request is never marked
done; with `K` finished hypotheses, early-stopping mode 1 marks it done
immediately, mode 0 marks it done exactly when no live beam's cumulative
log-probability normalized at the current generated length exceeds the
worst stored normed score, and every other mode runs the same test at the
length `neverLength` (maximal possible generated length when the length
penalty is positive, current length otherwise).  The kernel compares
against live beam 0 only, so the per-beam reading requires beam 0 to
dominate the live beams at the compared length, which holds because the
selection loop stores the candidates in descending score order. -/
theorem updateIsDone_spec (s : BeamState) (hK : 0 < s.K) :
    (s.num_beams < s.K → (updateIsDone s).is_done = false)
    ∧ (s.num_beams = s.K → s.early_stopping = 1 → (updateIsDone s).is_done = true)
    ∧ (s.num_beams = s.K → s.early_stopping = 0 →
        (∀ b, b < s.K → s.lenPen (s.cum_log_probs_src b) (currentLength s)
            ≤ s.lenPen (s.cum_log_probs_src 0) (currentLength s)) →
        ((updateIsDone s).is_done = true ↔
          ∀ b, b < s.K → s.lenPen (s.cum_log_probs_src b) (currentLength s)
            ≤ s.min_normed_scores))
    ∧ (s.num_beams = s.K → s.early_stopping ≠ 1 → s.early_stopping ≠ 0 →
        (∀ b, b < s.K → s.lenPen (s.cum_log_probs_src b) (neverLength s)
            ≤ s.lenPen (s.cum_log_probs_src 0) (neverLength s)) →
        ((updateIsDone s).is_done = true ↔
          ∀ b, b < s.K → s.lenPen (s.cum_log_probs_src b) (neverLength s)
            ≤ s.min_normed_scores)) := by
  refine ⟨?_, ?_, ?_, ?_⟩
  · intro hlt
    simp only [updateIsDone]
    rw [if_pos hlt]
  · intro hfull hes
    simp only [updateIsDone]
    rw [if_neg (by omega), if_pos hes]
  · intro hfull hes hdom
    have hval : (updateIsDone s).is_done
        = decide (s.lenPen (s.cum_log_probs_src 0) (currentLength s)
            ≤ s.min_normed_scores) := by
      simp only [updateIsDone]
      rw [if_neg (by omega), if_neg (by omega), if_pos hes]
      rfl
    rw [hval, decide_eq_true_iff]
    constructor
    · intro hd b hb
      exact le_trans (hdom b hb) hd
    · intro hall
      exact hall 0 hK
  · intro hfull hes1 hes0 hdom
    have hval : (updateIsDone s).is_done
        = decide (s.lenPen (s.cum_log_probs_src 0) (neverLength s)
            ≤ s.min_normed_scores) := by
      simp only [updateIsDone]
      rw [if_neg (by omega), if_neg (by omega), if_neg (by omega)]
      rfl
    rw [hval, decide_eq_true_iff]
    constructor
    · intro hd b hb
      exact le_trans (hdom b hb) hd
    · intro hall
      exact hall 0 hK

/-- C3 witness: a request holding one of two required hypotheses is not
marked done. -/
theorem updateIsDone_spec_witness :
    (updateIsDone exStateOne).is_done = false := by
  exact (updateIsDone_spec exStateOne (by decide)).1 (by decide)

/-- C9: a request entering the hypothesis-selection step with a full
finished-hypothesis ledger (`numBeams = K`, beam search enabled) makes the
kernel return immediately, leaving every component of the request's state
(the ledger, the live-beam cumulative log-probabilities, the output-token
buffers and the done flag) unchanged. -/
theorem batch_topk_kernel_full_ledger_frame (s : BeamState) (cands : List Cand)
    (hbs : s.beamSearchEnabled = true) (hfull : s.num_beams = s.K) (hK : 0 < s.K) :
    batch_topk_kernel s cands = s := by
  simp only [batch_topk_kernel]
  rw [if_pos hbs, if_neg (by omega), if_pos hfull]

/-- C9 witness: the concrete full-ledger state `exState` is returned
unchanged. -/
theorem batch_topk_kernel_full_ledger_frame_witness :
    batch_topk_kernel exState [exCand] = exState := by
  exact batch_topk_kernel_full_ledger_frame exState [exCand] rfl rfl (by decide)
